import Mathlib

/-!
Verification of the draft-simulation engine in `game.py`.

The engine is shallowly embedded: each Python method of `DraftEnv` becomes a
Lean function over explicit state.  Python `None` becomes `Option.none`,
Python exceptions become `Except`, Python's global seeded RNG becomes an
explicit state of an abstract type `σ` threaded through every call, with the
library functions `random.choice` / `random.sample` / `random.seed` supplied
as the fields of a `Sampler σ` record (they are library collaborators, not
code of this repository).  `float` rewards (`0.0`, `-1.0`, `wins/length`)
become `ℚ`; `round(...)` in `build_deck` is modelled by exact
round-half-to-even on the rational `count * land_count / total`, which agrees
with Python's `round` whenever the float computation is exact.
-/

namespace MTG

/-- Color symbols `W U B R G` used in `color_identity` lists. -/
inductive Color where
  | W | U | B | R | G
deriving DecidableEq, Repr

/-- One catalog record, as consumed by `DraftEnv._build_maps`: the Python
dict's `"name"` key (`none` when the key is missing, in which case
`card["name"]` raises), `color_identity` (default `[]`), `rarity`
(default absent) and `is_basic_land` (default `False`). -/
structure Record where
  name : Option String
  color_identity : List Color
  rarity : Option String
  is_basic_land : Bool
deriving DecidableEq, Repr

/-- The five rarity pools of `_build_maps` (`rarity_pools` dict). -/
structure RarityPools where
  common : List Nat
  uncommon : List Nat
  rare : List Nat
  mythic : List Nat
  basic_land : List Nat
deriving DecidableEq, Repr

/-- Association-list lookup, the embedding of Python dict indexing for the
insertion-ordered dicts `card_id_map` / `id_card_map`. -/
def alookup {α β : Type} [DecidableEq α] : List (α × β) → α → Option β
  | [], _ => none
  | (k, v) :: rest, a => if a = k then some v else alookup rest a

/-- The mutable state built up by the loop of `_build_maps`. -/
structure BuildState where
  card_id_map : List (String × Nat)
  id_card_map : List (Nat × String)
  idx : Nat
  pools : RarityPools
  ci : Nat → List Color

/-- Initial `_build_maps` state: empty maps, `idx = 0`, empty pools,
`card_color_identity` empty (a lookup of an absent key is modelled by the
default `[]`, matching the `.get(cid, [])` read in `build_deck`). -/
def initBuildState : BuildState :=
  { card_id_map := []
    id_card_map := []
    idx := 0
    pools := ⟨[], [], [], [], []⟩
    ci := fun _ => [] }

/-- Python's `str.lower()` (ASCII case folding suffices for rarity labels). -/
def pyLower (s : String) : String :=
  ⟨s.data.map Char.toLower⟩

/-- The `rarity_pools[rar].append(cid)` step guarded by
`if rar in rarity_pools`: the dict has exactly the five keys below, and an
unrecognized label falls through to `pass`. -/
def addToPool (pools : RarityPools) (rar : String) (cid : Nat) : RarityPools :=
  if rar = "common" then { pools with common := pools.common ++ [cid] }
  else if rar = "uncommon" then { pools with uncommon := pools.uncommon ++ [cid] }
  else if rar = "rare" then { pools with rare := pools.rare ++ [cid] }
  else if rar = "mythic" then { pools with mythic := pools.mythic ++ [cid] }
  else if rar = "basic_land" then { pools with basic_land := pools.basic_land ++ [cid] }
  else pools

/-- One iteration of the `for card in cards_data` loop of `_build_maps`
once the name lookup succeeded: register a fresh name, record the color
identity, and file the id into its single rarity pool. -/
def processNamed (st : BuildState) (card : Record) (card_name : String) : BuildState :=
  let st1 :=
    if (alookup st.card_id_map card_name).isNone then
      { st with
          card_id_map := st.card_id_map ++ [(card_name, st.idx)]
          id_card_map := st.id_card_map ++ [(st.idx, card_name)]
          idx := st.idx + 1 }
    else st
  let cid := (alookup st1.card_id_map card_name).getD 0
  let st2 := { st1 with ci := fun k => if k = cid then card.color_identity else st1.ci k }
  if card.is_basic_land then
    { st2 with pools := { st2.pools with basic_land := st2.pools.basic_land ++ [cid] } }
  else
    { st2 with pools := addToPool st2.pools (pyLower (card.rarity.getD "")) cid }

/-- One iteration of the `for card in cards_data` loop of `_build_maps`:
`card["name"]` on a record without a name raises (modelled as `.error`,
the catalog build's only failure mode); otherwise `processNamed` runs. -/
def processRecord (st : BuildState) (card : Record) : Except String BuildState :=
  match card.name with
  | none => .error "CatalogError: record has no name"
  | some card_name => .ok (processNamed st card card_name)

/-- The record loop of `_build_maps`, propagating the missing-name error. -/
def buildMapsAux : BuildState → List Record → Except String BuildState
  | st, [] => .ok st
  | st, r :: rs =>
    match processRecord st r with
    | .error e => .error e
    | .ok st' => buildMapsAux st' rs

/-- `DraftEnv._build_maps`. -/
def buildMaps (records : List Record) : Except String BuildState :=
  buildMapsAux initBuildState records

/-- Number of times identity `i` occurs across all five rarity pools. -/
def countAll (pools : RarityPools) (i : Nat) : Nat :=
  List.count i (pools.common ++ pools.uncommon ++ pools.rare ++ pools.mythic ++ pools.basic_land)

/-- The five rarity labels recognized by `rar in rarity_pools`. -/
def recognizedRarities : List String :=
  ["common", "uncommon", "rare", "mythic", "basic_land"]

/-- `(name, identity)` pairs for consecutive identities starting at `i`:
the shape `card_id_map` always has. -/
def namePairs : Nat → List String → List (String × Nat)
  | _, [] => []
  | i, n :: ns => (n, i) :: namePairs (i + 1) ns

/-- `(identity, name)` pairs for consecutive identities starting at `i`:
the shape `id_card_map` always has. -/
def idPairs : Nat → List String → List (Nat × String)
  | _, [] => []
  | i, n :: ns => (i, n) :: idPairs (i + 1) ns

/-- The seeded random source (Python's `random` module): `seedFn` models
`random.seed`, `choice` models `random.choice` (returns an element of the
list), `sample` models `random.sample` (k elements drawn without
replacement).  The generator state type `σ` is abstract; the engine only
threads it. -/
structure Sampler (σ : Type) where
  seedFn : Nat → σ
  choice : List Nat → σ → Nat × σ
  sample : List Nat → Nat → σ → List Nat × σ

variable {σ : Type}

/-- The `basic_land` draw of `make_pack`: one `random.choice` from the
basic-land pool when it is non-empty. -/
def packBasic (sp : Sampler σ) (pools : RarityPools) (g : σ) : List Nat × σ :=
  if pools.basic_land.isEmpty then ([], g)
  else ([(sp.choice pools.basic_land g).1], (sp.choice pools.basic_land g).2)

/-- The commons draw of `make_pack`: `random.sample(common, 10)` when the
pool has at least 10 members, otherwise the whole pool. -/
def packCommons (sp : Sampler σ) (pools : RarityPools) (g : σ) : List Nat × σ :=
  if 10 ≤ pools.common.length then sp.sample pools.common 10 g
  else (pools.common, g)

/-- The uncommons draw of `make_pack`: `random.sample(uncommon, 3)` when the
pool has at least 3 members, otherwise the whole pool. -/
def packUncommons (sp : Sampler σ) (pools : RarityPools) (g : σ) : List Nat × σ :=
  if 3 ≤ pools.uncommon.length then sp.sample pools.uncommon 3 g
  else (pools.uncommon, g)

/-- The rare-or-mythic draw of `make_pack`: one `random.choice` from the
concatenation of the rare and mythic pools when it is non-empty. -/
def packRare (sp : Sampler σ) (pools : RarityPools) (g : σ) : List Nat × σ :=
  let rm := pools.rare ++ pools.mythic
  if rm.isEmpty then ([], g)
  else ([(sp.choice rm g).1], (sp.choice rm g).2)

/-- `DraftEnv.make_pack`: the four rarity draws in source order, truncated
to 15 ids and padded with `None` up to exactly 15 slots. -/
def make_pack (sp : Sampler σ) (pools : RarityPools) (g : σ) : List (Option Nat) × σ :=
  let b := packBasic sp pools g
  let c := packCommons sp pools b.2
  let u := packUncommons sp pools c.2
  let r := packRare sp pools u.2
  let ids := b.1 ++ c.1 ++ u.1 ++ r.1
  let p := (ids.take 15).map some
  (p ++ List.replicate (15 - p.length) none, r.2)

/-- `num_players` of `DraftEnv.__init__`. -/
def numPlayers : Nat := 8

/-- `num_packs` (rounds) of `DraftEnv.__init__`. -/
def numPacks : Nat := 3

/-- `cards_per_pack` of `DraftEnv.__init__`. -/
def cardsPerPack : Nat := 15

/-- The catalog-derived configuration an environment instance carries:
its rarity pools and `card_color_identity` map ( `.get(cid, [])` reads are
modelled by a total function defaulting to `[]`). -/
structure Cfg where
  pools : RarityPools
  ci : Nat → List Color

/-- The mutable draft state of `DraftEnv` after `reset`. -/
structure DraftState (σ : Type) where
  all_packs_by_round : List (List (List (Option Nat)))
  pack_holder : List Nat
  round_idx : Nat
  pick_idx : Nat
  done_drafting : Bool
  user_picks : List Nat
  basic_land_ids : Color → Option Nat
  rng : σ

/-- `DraftEnv._populate_basic_land_ids`: scan the basic-land pool and record
the id whose color identity is exactly the singleton of each color; a later
match overwrites an earlier one. -/
def populateStep (ci : Nat → List Color) (bli : Color → Option Nat) (land_id : Nat) :
    Color → Option Nat :=
  if ci land_id = [Color.W] then fun c => if c = Color.W then some land_id else bli c
  else if ci land_id = [Color.U] then fun c => if c = Color.U then some land_id else bli c
  else if ci land_id = [Color.B] then fun c => if c = Color.B then some land_id else bli c
  else if ci land_id = [Color.R] then fun c => if c = Color.R then some land_id else bli c
  else if ci land_id = [Color.G] then fun c => if c = Color.G then some land_id else bli c
  else bli

/-- `DraftEnv._populate_basic_land_ids` body (see `populateStep`). -/
def populate_basic_land_ids (pools : RarityPools) (ci : Nat → List Color) : Color → Option Nat :=
  pools.basic_land.foldl (populateStep ci) (fun _ => none)

/-- `n` consecutive `make_pack` calls threading the generator: one round's
`[self.make_pack() for __ in range(self.num_players)]`. -/
def mkPacks (sp : Sampler σ) (pools : RarityPools) : Nat → σ → List (List (Option Nat)) × σ
  | 0, g => ([], g)
  | n + 1, g =>
    let p := make_pack sp pools g
    let rest := mkPacks sp pools n p.2
    (p.1 :: rest.1, rest.2)

/-- The `for _ in range(self.num_packs)` loop of `reset` building
`all_packs_by_round`. -/
def mkRounds (sp : Sampler σ) (pools : RarityPools) : Nat → σ → List (List (List (Option Nat))) × σ
  | 0, g => ([], g)
  | n + 1, g =>
    let r := mkPacks sp pools numPlayers g
    let rest := mkRounds sp pools n r.2
    (r.1 :: rest.1, rest.2)

/-- `DraftEnv.reset`: reseed when a seed is given (else keep the incoming
generator state), zero the counters, clear the pick history, rebuild all
`3 × 8` packs, give seat `i` pack `i`, and recompute the basic-land ids. -/
def reset (sp : Sampler σ) (cfg : Cfg) (seed : Option Nat) (g0 : σ) : DraftState σ :=
  let g := match seed with
    | some s => sp.seedFn s
    | none => g0
  let rounds := mkRounds sp cfg.pools numPacks g
  { all_packs_by_round := rounds.1
    pack_holder := List.range numPlayers
    round_idx := 0
    pick_idx := 0
    done_drafting := false
    user_picks := []
    basic_land_ids := populate_basic_land_ids cfg.pools cfg.ci
    rng := rounds.2 }

/-- The pack seat 0 currently holds:
`self.all_packs_by_round[self.round_idx][self.pack_holder[0]]`. -/
def currentUserPack (s : DraftState σ) : List (Option Nat) :=
  (s.all_packs_by_round.getD s.round_idx []).getD (s.pack_holder.getD 0 0) []

/-- `DraftEnv._build_observation` as a total matrix function
`(row, col) ↦ entry` over the `(60, num_cards_total)` one-hot array:
rows `0..44` are the picks so far, rows `45..59` the current pack (all-zero
when the draft is done). -/
def build_observation (s : DraftState σ) : Nat → Nat → ℚ := fun i c =>
  if i < 45 ∧ s.user_picks.get? i = some c then 1
  else if s.done_drafting = false ∧ 45 ≤ i ∧ i < 60 ∧
      (currentUserPack s).getD (i - 45) none = some c then 1
  else 0

/-- `DraftEnv.get_mask`. -/
def get_mask (s : DraftState σ) : List Bool :=
  if s.done_drafting then List.replicate 15 false
  else (currentUserPack s).map (fun c => c.isSome)

/-- Per-color tally of `build_deck`: each occurrence of the color symbol in
a main-deck card's color identity increments the counter. -/
def colorTally (ci : Nat → List Color) (main : List Nat) (c : Color) : Nat :=
  (main.map (fun cid => (ci cid).count c)).sum

/-- The dict iteration order `W U B R G` of `color_counts`. -/
def colorOrder : List Color := [Color.W, Color.U, Color.B, Color.R, Color.G]

/-- `total_colors = sum(color_counts.values())`. -/
def totalColors (ci : Nat → List Color) (main : List Nat) : Nat :=
  (colorOrder.map (colorTally ci main)).sum

/-- Python's `round` (banker's rounding, ties to even) applied to the exact
rational `num / den`, `den > 0`; equals `int(round(num/den))` whenever the
float computation of `num/den` is exact. -/
def pyRoundDiv (num den : Nat) : Nat :=
  let q := num / den
  let r := num % den
  if 2 * r < den then q
  else if den < 2 * r then q + 1
  else if q % 2 = 0 then q else q + 1

/-- Python's `a or b` over `None`-or-int values: `a` when `a` is truthy
(`Some v` with `v ≠ 0`; the int `0` is falsy), else `b`. -/
def pyOr (a b : Option Nat) : Option Nat :=
  match a with
  | some v => if v = 0 then b else some v
  | none => b

/-- `max(color_counts, key=color_counts.get)`: the first color in dict
order with the maximal tally. -/
def maxColor (t : Color → Nat) : Color :=
  [Color.U, Color.B, Color.R, Color.G].foldl
    (fun best c => if t best < t c then c else best) Color.W

/-- The land-apportionment loop of `build_deck`: for each color in dict
order, compute `portion = round(count/total * land_count)` and, when that
color has a registered basic land, append `portion` copies of it and add
`portion` to `used`; returns `(land_ids, used)`. -/
def landLoop (ci : Nat → List Color) (bli : Color → Option Nat) (main : List Nat)
    (land_count : Nat) : List (Option Nat) × Nat :=
  colorOrder.foldl
    (fun acc c =>
      let portion := pyRoundDiv (colorTally ci main c * land_count) (totalColors ci main)
      if (bli c).isSome then (acc.1 ++ List.replicate portion (bli c), acc.2 + portion)
      else acc)
    ([], 0)

/-- `DraftEnv.build_deck` (the unused `deck_size` parameter is dropped):
main portion is the first `main_count` picks; zero total color tally puts
`land_count` copies of the blue basic land; otherwise lands are apportioned
by `landLoop` and a positive shortfall is filled with the largest-tally
color's land, falling back through Python's `or` to the blue one. -/
def build_deck (ci : Nat → List Color) (bli : Color → Option Nat) (picks : List Nat)
    (main_count land_count : Nat) : List (Option Nat) :=
  let main := picks.take main_count
  if totalColors ci main = 0 then
    main.map some ++ List.replicate land_count (bli Color.U)
  else
    let lands := landLoop ci bli main land_count
    let diff : Int := (land_count : Int) - (lands.2 : Int)
    if 0 < diff then
      let top := maxColor (colorTally ci main)
      let top_land := pyOr (bli top) (bli Color.U)
      main.map some ++ lands.1 ++ List.replicate diff.toNat top_land
    else
      main.map some ++ lands.1

/-- The value `step` returns: Python's tuple, which is a 4-tuple
`(obs, reward, done, info)` on the early-return paths and a 5-tuple
`(obs, reward, done, truncated, info)` on the accepted paths; the `info`
dict is always `{}` and is dropped. -/
inductive StepRet where
  | quad : (Nat → Nat → ℚ) → ℚ → Bool → StepRet
  | quint : (Nat → Nat → ℚ) → ℚ → Bool → Bool → StepRet

/-- Number of components of the Python tuple a `StepRet` stands for. -/
def retArity : StepRet → Nat
  | .quad _ _ _ => 4
  | .quint _ _ _ _ => 5

/-- Observation component of a step return value. -/
def obsOf : StepRet → (Nat → Nat → ℚ)
  | .quad o _ _ => o
  | .quint o _ _ _ => o

/-- Whether the return value is the 5-tuple of an accepted action. -/
def isAccepted : StepRet → Bool
  | .quad _ _ _ => false
  | .quint _ _ _ _ => true

/-- The `for seat in range(1, self.num_players)` loop of `step`: each other
seat collects the non-empty slot indices of the pack it holds and, when any
exist, removes the one `random.choice` picks. -/
def otherSeatsPick (sp : Sampler σ) (roundPacks : List (List (Option Nat)))
    (holder : List Nat) (g : σ) : List (List (Option Nat)) × σ :=
  (List.range numPlayers).drop 1 |>.foldl
    (fun acc seat =>
      let pack_index := holder.getD seat 0
      let pack_cards := acc.1.getD pack_index []
      let valid_slots := (List.range pack_cards.length).filter
        (fun i => (pack_cards.getD i none).isSome)
      if valid_slots.isEmpty then acc
      else
        let ch := sp.choice valid_slots acc.2
        (acc.1.set pack_index (pack_cards.set ch.1 none), ch.2))
    (roundPacks, g)

/-- The pass-to-the-right rotation of `step`: the loop
`new_holder[(seat+1) % 8] = pack_holder[seat]` writes each position exactly
once, so the new list is `j ↦ pack_holder[(j-1) mod 8]`. -/
def rotateHolder (holder : List Nat) : List Nat :=
  (List.range numPlayers).map (fun j => holder.getD ((j + numPlayers - 1) % numPlayers) 0)

/-- Steps 1–4 of an accepted `step`: clear the picked slot, append the card
to the pick history, let the other seats pick, rotate the packs, and advance
the pick/round counters (restarting the hand assignment only when further
rounds remain). -/
def applyPick (sp : Sampler σ) (s : DraftState σ) (slot : Nat) (card_id : Nat) :
    DraftState σ :=
  let upi := s.pack_holder.getD 0 0
  let rp0 := s.all_packs_by_round.getD s.round_idx []
  let rp1 := rp0.set upi ((rp0.getD upi []).set slot none)
  let other := otherSeatsPick sp rp1 s.pack_holder s.rng
  let packs := s.all_packs_by_round.set s.round_idx other.1
  let holder := rotateHolder s.pack_holder
  if cardsPerPack ≤ s.pick_idx + 1 then
    { s with
        all_packs_by_round := packs
        pack_holder := if s.round_idx + 1 < numPacks then List.range numPlayers else holder
        round_idx := s.round_idx + 1
        pick_idx := 0
        user_picks := s.user_picks ++ [card_id]
        rng := other.2 }
  else
    { s with
        all_packs_by_round := packs
        pack_holder := holder
        pick_idx := s.pick_idx + 1
        user_picks := s.user_picks ++ [card_id]
        rng := other.2 }

/-- `DraftEnv.step`.  `fr` is the external match arbiter: the composite
`wins/length` reward the terminal branch computes from
`test_in_parralell(build_deck())`, a function of the assembled deck only
(subprocess play is out of scope).  Early returns are the 4-tuples of the
source; accepted actions return 5-tuples. -/
def step (sp : Sampler σ) (cfg : Cfg) (fr : List (Option Nat) → ℚ)
    (s : DraftState σ) (action : Int) : StepRet × DraftState σ :=
  if s.done_drafting then (.quad (build_observation s) 0 true, s)
  else if action < 0 ∨ (cardsPerPack : Int) ≤ action then
    (.quad (build_observation s) (-1) false, s)
  else
    match (currentUserPack s).getD action.toNat none with
    | none => (.quad (build_observation s) (-1) false, s)
    | some card_id =>
      let s1 := applyPick sp s action.toNat card_id
      if numPacks ≤ s1.round_idx then
        let s2 := { s1 with done_drafting := true }
        (.quint (build_observation s2)
          (fr (build_deck cfg.ci s2.basic_land_ids s2.user_picks 33 27)) true false, s2)
      else
        (.quint (build_observation s1) 0 false false, s1)

/-- Iterated `step`, keeping only the state. -/
def runSteps (sp : Sampler σ) (cfg : Cfg) (fr : List (Option Nat) → ℚ) :
    DraftState σ → List Int → DraftState σ
  | s, [] => s
  | s, a :: as => runSteps sp cfg fr (step sp cfg fr s a).2 as

/-- Whether every action of the sequence is accepted when played in order. -/
def allAccepted (sp : Sampler σ) (cfg : Cfg) (fr : List (Option Nat) → ℚ) :
    DraftState σ → List Int → Bool
  | _, [] => true
  | s, a ::as => isAccepted (step sp cfg fr s a).1 && allAccepted sp cfg fr (step sp cfg fr s a).2 as

/-- The observation of each step return value along an action sequence. -/
def obsTrace (sp : Sampler σ) (cfg : Cfg) (fr : List (Option Nat) → ℚ) :
    DraftState σ → List Int → List (Nat → Nat → ℚ)
  | _, [] => []
  | s, a :: as =>
    obsOf (step sp cfg fr s a).1 :: obsTrace sp cfg fr (step sp cfg fr s a).2 as

/-- The counter/history invariant `step` maintains: while drafting, the pick
history length is exactly the number of completed turns and the counters are
in range; once done, the history has all 45 picks. -/
def InvD (s : DraftState σ) : Prop :=
  (s.done_drafting = false →
    s.user_picks.length = s.round_idx * cardsPerPack + s.pick_idx ∧
    s.pick_idx < cardsPerPack ∧ s.round_idx < numPacks) ∧
  (s.done_drafting = true → s.user_picks.length = numPacks * cardsPerPack)

/-- A concrete deterministic `Sampler` instance used to evaluate the model
on closed inputs: `choice` takes the head, `sample` the first `k` elements
(a legitimate without-replacement sample). -/
def trivSampler : Sampler Unit where
  seedFn := fun _ => ()
  choice := fun l _ => (l.headD 0, ())
  sample := fun l k _ => (l.take k, ())

/-- A small concrete catalog configuration: 10 commons, 3 uncommons, 1 rare and
1 basic land, so `make_pack` fills all 15 slots. -/
def wCfg : Cfg where
  pools := ⟨List.range 10, [10, 11, 12], [13], [], [14]⟩
  ci := fun _ => []

/-- A trivial external match arbiter (reward of the terminal step). -/
def wFr : List (Option Nat) → ℚ := fun _ => 0

/-- Concrete freshly-reset draft state. -/
def wS0 : DraftState Unit := reset trivSampler wCfg (some 0) ()

/-- The driver loop of `test.py`: read the mask, submit the first valid
slot, repeat — used to produce a concrete all-accepted action sequence. -/
def greedyActs (sp : Sampler σ) (cfg : Cfg) (fr : List (Option Nat) → ℚ) :
    Nat → DraftState σ → List Int
  | 0, _ => []
  | n + 1, s =>
    let a : Int := ((List.findIdx? (fun c => c.isSome) (currentUserPack s)).getD 0 : Nat)
    a :: greedyActs sp cfg fr n (step sp cfg fr s a).2

/-- 45 greedy actions from the concrete reset state. -/
def wActs : List Int := greedyActs trivSampler wCfg wFr 45 wS0

/-- Color identities of the deck-overflow input: pick 0 is mono-white,
pick 1 mono-blue, every other card colorless. -/
def cexCi2 : Nat → List Color := fun n =>
  if n = 0 then [Color.W] else if n = 1 then [Color.U] else []

/-- Basic lands registered for every color on the deck-overflow input. -/
def cexBli2 : Color → Option Nat := fun _ => some 100

/-- 33 picks whose color tally is `{W: 1, U: 1}`. -/
def cexPicks2 : List Nat := List.range 33

/-- The duplicate-name catalog: two records named `X` (both common) and one
record with an unrecognized rarity label. -/
def cexRecords4 : List Record :=
  [⟨some "X", [], some "common", false⟩,
   ⟨some "X", [], some "common", false⟩,
   ⟨some "Y", [], some "special", false⟩]

/-- Whether a catalog build succeeded. -/
def buildOk : Except String BuildState → Bool
  | .ok _ => true
  | .error _ => false

/-- The rarity pools the duplicate-name catalog builds. -/
def cexPools4 : RarityPools :=
  match buildMaps cexRecords4 with
  | .ok st => st.pools
  | .error _ => ⟨[], [], [], [], []⟩

/-- The identity counter the duplicate-name catalog reaches. -/
def cexIdx4 : Nat :=
  match buildMaps cexRecords4 with
  | .ok st => st.idx
  | .error _ => 0

/-- A well-formed catalog (distinct names, recognized classes) for the
amended pack-distinctness claim. -/
def wRecords4 : List Record :=
  [⟨some "A", [Color.W], some "common", false⟩,
   ⟨some "B", [], some "uncommon", false⟩,
   ⟨some "C", [], some "rare", false⟩,
   ⟨some "I", [Color.U], none, true⟩]

/-- Degenerate pools: two commons, one uncommon, no rare and no basic land. -/
def wPools5 : RarityPools := ⟨[0, 1], [2], [], [], []⟩

/-- A catalog whose second record has no name. -/
def wRecords6bad : List Record :=
  [⟨some "A", [], some "common", false⟩, ⟨none, [], none, false⟩]

/-- A catalog all of whose records have names. -/
def wRecords6ok : List Record :=
  [⟨some "A", [], some "common", false⟩, ⟨some "B", [], some "weird", true⟩]

/-- A catalog with a repeated name, for the round-trip claim. -/
def wRecords7 : List Record :=
  [⟨some "A", [], none, false⟩, ⟨some "A", [], some "common", false⟩,
   ⟨some "B", [], none, false⟩]

/-- The build state of `wRecords7` (the build succeeds). -/
def wOut7 : BuildState :=
  match buildMaps wRecords7 with
  | .ok st => st
  | .error _ => initBuildState

/-- Pools for the default-land-color claim witness: one basic land whose
color identity is not mono-blue. -/
def wPools9 : RarityPools := ⟨[], [], [], [], [5]⟩

/-- Shape invariant of the two catalog maps: they are the name/identity
pairings of a duplicate-free name list, in first-occurrence order, and that
list holds exactly the names of the records processed so far. -/
def GoodMaps (processed : List Record) (st : BuildState) : Prop :=
  ∃ names : List String,
    names.Nodup ∧
    st.card_id_map = namePairs 0 names ∧
    st.id_card_map = idPairs 0 names ∧
    st.idx = names.length ∧
    (∀ n : String, n ∈ names ↔ some n ∈ processed.map Record.name)

set_option maxRecDepth 100000

/-- A `populateStep` on a land whose color identity is not exactly `[U]`
leaves the blue entry unchanged. -/
lemma populateStep_U_of_ne (ci : Nat → List Color) (bli : Color → Option Nat) (i : Nat)
    (h : ci i ≠ [Color.U]) : populateStep ci bli i Color.U = bli Color.U := by
  unfold populateStep
  split_ifs <;> simp_all

/-- Folding `populateStep` over lands none of which is mono-blue keeps the
blue entry at its accumulator value. -/
lemma populate_fold_U_none (ci : Nat → List Color) (l : List Nat)
    (acc : Color → Option Nat) (h : ∀ i ∈ l, ci i ≠ [Color.U]) :
    (l.foldl (populateStep ci) acc) Color.U = acc Color.U := by
  induction l generalizing acc with
  | nil => rfl
  | cons i t ih =>
    simp only [List.foldl_cons]
    rw [ih _ (fun j hj => h j (List.mem_cons_of_mem _ hj))]
    exact populateStep_U_of_ne ci acc i (h i (List.mem_cons_self _ _))

/-- C9: the designated default land color is blue: a main portion with a
zero color tally makes `build_deck` append `land_count` copies of the entry
registered for the mono-blue basic land, and when the catalog has no basic
land whose color identity is exactly `[U]`, that registered entry is the
null marker (so those deck slots are not card identities). -/
theorem c9_default_land_is_blue (ci : Nat → List Color) (bli : Color → Option Nat)
    (picks : List Nat) (pools : RarityPools)
    (htally : totalColors ci (picks.take 33) = 0)
    (hnoU : ∀ i ∈ pools.basic_land, ci i ≠ [Color.U]) :
    build_deck ci bli picks 33 27 =
      (picks.take 33).map some ++ List.replicate 27 (bli Color.U) ∧
    populate_basic_land_ids pools ci Color.U = none := by
  constructor
  · unfold build_deck
    rw [if_pos htally]
  · exact populate_fold_U_none ci pools.basic_land _ hnoU

/-- Witness for C9 at a concrete colorless pick history and a pool whose
only basic land is not mono-blue. -/
theorem c9_witness :
    build_deck (fun _ => []) (fun _ => none) [1, 2, 3] 33 27 =
      ([1, 2, 3] : List Nat).map some ++ List.replicate 27 none ∧
    populate_basic_land_ids wPools9 (fun _ => []) Color.U = none :=
  c9_default_land_is_blue (fun _ => []) (fun _ => none) [1, 2, 3] wPools9
    (by decide) (by decide)

/-- C2 (code bug): on a 33-pick history whose color tally is `{W:1, U:1}`
with all basic lands registered, `build_deck(main_count=33, land_count=27)`
returns 61 entries of which 28 are lands: `round(13.5) = 14` for both
colors (ties to even) and the shortfall fix only ever adds lands, never
removes, contradicting the documented 60-card/27-land contract. -/
theorem c2_deck_overflow :
    (build_deck cexCi2 cexBli2 cexPicks2 33 27).length = 61 ∧
    (List.drop 33 (build_deck cexCi2 cexBli2 cexPicks2 33 27)).length = 28 := by
  decide

/-- C8: `reset` with an explicit seed derives the generator state from the
seed alone, so two runs from `reset(seed)` — whatever generator states the
instances had before — yield the same turn-zero observation and the same
observation at every subsequent step of an identical action sequence. -/
theorem c8_seeded_runs_reproducible {σ : Type} (sp : Sampler σ) (cfg : Cfg)
    (fr : List (Option Nat) → ℚ) (seed : Nat) (g1 g2 : σ) (acts : List Int) :
    build_observation (reset sp cfg (some seed) g1) =
      build_observation (reset sp cfg (some seed) g2) ∧
    obsTrace sp cfg fr (reset sp cfg (some seed) g1) acts =
      obsTrace sp cfg fr (reset sp cfg (some seed) g2) acts := by
  have h : reset sp cfg (some seed) g1 = reset sp cfg (some seed) g2 := rfl
  exact ⟨congrArg build_observation h, congrArg (fun s => obsTrace sp cfg fr s acts) h⟩

/-- C1: with the table not yet terminal, an action outside `[0, 15)` or
aimed at an empty slot of seat 0's current pack returns the 4-tuple
`(obs, -1.0, False, {})` and returns the state itself: round index, pick
index, pack holders, every pack slot, pick history and generator state are
all unchanged. -/
theorem c1_invalid_action_rejected {σ : Type} (sp : Sampler σ) (cfg : Cfg)
    (fr : List (Option Nat) → ℚ) (s : DraftState σ) (a : Int)
    (hnd : s.done_drafting = false)
    (hbad : a < 0 ∨ (15 : Int) ≤ a ∨ (currentUserPack s).getD a.toNat none = none) :
    step sp cfg fr s a = (.quad (build_observation s) (-1) false, s) := by
  unfold step
  rw [hnd]
  simp only [Bool.false_eq_true, if_false]
  rcases hbad with h | h | h
  · rw [if_pos (Or.inl h)]
  · rw [if_pos (Or.inr (show (cardsPerPack : Int) ≤ a by simpa [cardsPerPack] using h))]
  · by_cases hr : a < 0 ∨ (cardsPerPack : Int) ≤ a
    · rw [if_pos hr]
    · rw [if_neg hr, h]

/-- Witness for C1: the out-of-range action `-1` on the concrete reset
state. -/
theorem c1_witness :
    step trivSampler wCfg wFr wS0 (-1) =
      (.quad (build_observation wS0) (-1) false, wS0) :=
  c1_invalid_action_rejected trivSampler wCfg wFr wS0 (-1) (by decide)
    (Or.inl (by decide))

/-- A record list containing a record with no name makes the build loop
fail from any intermediate state. -/
lemma buildMapsAux_error_of_missing (recs : List Record) :
    ∀ st : BuildState, (∃ r ∈ recs, r.name = none) →
    ∃ e, buildMapsAux st recs = .error e := by
  induction recs with
  | nil => intro st h; rcases h with ⟨r, hr, _⟩; cases hr
  | cons r rs ih =>
    intro st h
    cases hname : r.name with
    | none =>
      refine ⟨"CatalogError: record has no name", ?_⟩
      unfold buildMapsAux processRecord
      rw [hname]
    | some n =>
      rcases h with ⟨r', hr', hnone⟩
      rcases List.mem_cons.mp hr' with rfl | hmem
      · rw [hname] at hnone; cases hnone
      · unfold buildMapsAux processRecord
        rw [hname]
        exact ih _ ⟨r', hmem, hnone⟩

/-- A record list all of whose records have names runs the build loop to a
successful state from any intermediate state. -/
lemma buildMapsAux_ok_of_named (recs : List Record) :
    ∀ st : BuildState, (∀ r ∈ recs, r.name ≠ none) →
    ∃ out, buildMapsAux st recs = .ok out := by
  induction recs with
  | nil => intro st _; exact ⟨st, rfl⟩
  | cons r rs ih =>
    intro st h
    cases hname : r.name with
    | none => exact absurd hname (h r (List.mem_cons_self _ _))
    | some n =>
      unfold buildMapsAux processRecord
      rw [hname]
      exact ih _ (fun r' hr' => h r' (List.mem_cons_of_mem _ hr'))

/-- C6: a catalog containing a record with no name makes catalog
construction signal the catalog error (the build aborts with `.error`,
surfaced immediately); on well-formed records (every record named) the
build step has no other failure mode and returns successfully. -/
theorem c6_missing_name_is_only_failure (records : List Record) :
    ((∃ r ∈ records, r.name = none) → ∃ e, buildMaps records = .error e) ∧
    ((∀ r ∈ records, r.name ≠ none) → ∃ out, buildMaps records = .ok out) :=
  ⟨buildMapsAux_error_of_missing records initBuildState,
   buildMapsAux_ok_of_named records initBuildState⟩

/-- Witness for C6: a concrete catalog with a nameless second record fails;
a concrete fully-named catalog (even with an unrecognized rarity) builds. -/
theorem c6_witness :
    (∃ e, buildMaps wRecords6bad = .error e) ∧
    (∃ out, buildMaps wRecords6ok = .ok out) :=
  ⟨(c6_missing_name_is_only_failure wRecords6bad).1
      ⟨⟨none, [], none, false⟩, by decide, rfl⟩,
   (c6_missing_name_is_only_failure wRecords6ok).2 (by decide)⟩

/-- C10: `step` has no uniform return shape: a call on a terminal table and
a call with an invalid action return Python 4-tuples, while every accepted
action returns a 5-tuple. -/
theorem c10_step_return_arity {σ : Type} (sp : Sampler σ) (cfg : Cfg)
    (fr : List (Option Nat) → ℚ) (s : DraftState σ) (a : Int) :
    ((s.done_drafting = true ∨ a < 0 ∨ (15 : Int) ≤ a ∨
        (currentUserPack s).getD a.toNat none = none) →
      retArity (step sp cfg fr s a).1 = 4) ∧
    ((s.done_drafting = false ∧ 0 ≤ a ∧ a < 15 ∧
        (currentUserPack s).getD a.toNat none ≠ none) →
      retArity (step sp cfg fr s a).1 = 5) := by
  constructor
  · intro h
    unfold step
    by_cases hd : s.done_drafting
    · rw [if_pos hd]; rfl
    · rw [if_neg hd]
      rcases h with h | h | h | h
      · exact absurd h hd
      · rw [if_pos (Or.inl h)]; rfl
      · rw [if_pos (Or.inr (show (cardsPerPack : Int) ≤ a by
          simpa [cardsPerPack] using h))]
        rfl
      · by_cases hr : a < 0 ∨ (cardsPerPack : Int) ≤ a
        · rw [if_pos hr]; rfl
        · rw [if_neg hr, h]; rfl
  · rintro ⟨hd, h0, h15, hslot⟩
    unfold step
    rw [hd]
    simp only [Bool.false_eq_true, if_false]
    rw [if_neg (by push_neg; exact ⟨h0, by simpa [cardsPerPack] using h15⟩)]
    rcases hc : (currentUserPack s).getD a.toNat none with _ | c
    · exact absurd hc hslot
    · simp only []
      split <;> rfl

/-- Witness for C10: on the concrete reset state, action `-1` yields a
4-tuple and action `0` a 5-tuple. -/
theorem c10_witness :
    retArity (step trivSampler wCfg wFr wS0 (-1)).1 = 4 ∧
    retArity (step trivSampler wCfg wFr wS0 0).1 = 5 :=
  ⟨(c10_step_return_arity trivSampler wCfg wFr wS0 (-1)).1 (Or.inr (Or.inl (by decide))),
   (c10_step_return_arity trivSampler wCfg wFr wS0 0).2
     ⟨by decide, by decide, by decide, by decide⟩⟩

/-- The basic-land draw fills at most one slot. -/
lemma packBasic_length_le (sp : Sampler σ) (pools : RarityPools) (g : σ) :
    (packBasic sp pools g).1.length ≤ 1 := by
  unfold packBasic
  split <;> simp

/-- With fewer than 10 commons available, the commons draw is the whole
common pool. -/
lemma packCommons_fst_small (sp : Sampler σ) (pools : RarityPools) (g : σ)
    (h : pools.common.length < 10) : (packCommons sp pools g).1 = pools.common := by
  unfold packCommons
  rw [if_neg (by omega)]

/-- With fewer than 3 uncommons available, the uncommons draw is the whole
uncommon pool. -/
lemma packUncommons_fst_small (sp : Sampler σ) (pools : RarityPools) (g : σ)
    (h : pools.uncommon.length < 3) : (packUncommons sp pools g).1 = pools.uncommon := by
  unfold packUncommons
  rw [if_neg (by omega)]

/-- When `sample` honours its requested size, the commons draw fills at
most 10 slots. -/
lemma packCommons_fst_length_le (sp : Sampler σ) (pools : RarityPools) (g : σ)
    (hs : ∀ (l : List Nat) (k : Nat) (g' : σ), k ≤ l.length →
      ((sp.sample l k g').1).length = k) :
    ((packCommons sp pools g).1).length ≤ 10 := by
  unfold packCommons
  split
  · rw [hs _ _ _ (by assumption)]
  · show pools.common.length ≤ 10
    omega

/-- Any element of a middle segment short enough to fit in the first 15
positions survives the truncation of `make_pack`. -/
lemma mem_take15_middle (l1 l2 l3 : List Nat) (c : Nat)
    (hlen : l1.length + l2.length ≤ 15) (hc : c ∈ l2) :
    c ∈ (l1 ++ l2 ++ l3).take 15 := by
  rw [List.append_assoc, List.take_append_eq_append_take,
    List.take_of_length_le (by omega : l1.length ≤ 15),
    List.take_append_eq_append_take,
    List.take_of_length_le (by omega : l2.length ≤ 15 - l1.length)]
  exact List.mem_append_right _ (List.mem_append_left _ hc)

/-- Membership in the second of four segments survives the truncation. -/
lemma mem_take15_four_b (l1 l2 l3 l4 : List Nat) (c : Nat)
    (hlen : l1.length + l2.length ≤ 15) (hc : c ∈ l2) :
    c ∈ (l1 ++ l2 ++ l3 ++ l4).take 15 := by
  rw [List.take_append_eq_append_take]
  exact List.mem_append_left _ (mem_take15_middle l1 l2 l3 c hlen hc)

/-- Membership in the third of four segments survives the truncation. -/
lemma mem_take15_four_c (l1 l2 l3 l4 : List Nat) (c : Nat)
    (hlen : l1.length + l2.length + l3.length ≤ 15) (hc : c ∈ l3) :
    c ∈ (l1 ++ l2 ++ l3 ++ l4).take 15 := by
  rw [List.take_append_eq_append_take]
  apply List.mem_append_left
  have h := mem_take15_middle (l1 ++ l2) l3 [] c (by simp; omega) hc
  simpa using h

/-- C5: for every rarity-pool configuration — no basic land, undersized
common or uncommon pools included — `make_pack` returns exactly 15 slots,
includes every member of an undersized pool rather than failing, and pads
the remaining slots with the empty marker (`sample` is assumed to return
`k` elements when asked for `k ≤ |pool|`, as `random.sample` does). -/
theorem c5_make_pack_degrades_gracefully {σ : Type} (sp : Sampler σ)
    (pools : RarityPools) (g : σ)
    (hs : ∀ (l : List Nat) (k : Nat) (g' : σ), k ≤ l.length →
      ((sp.sample l k g').1).length = k) :
    ((make_pack sp pools g).1.length = 15) ∧
    (pools.common.length < 10 →
      ∀ c ∈ pools.common, some c ∈ (make_pack sp pools g).1) ∧
    (pools.uncommon.length < 3 →
      ∀ c ∈ pools.uncommon, some c ∈ (make_pack sp pools g).1) := by
  refine ⟨?_, ?_, ?_⟩
  · simp only [make_pack, List.length_append, List.length_map, List.length_take,
      List.length_replicate]
    omega
  · intro hsmall c hc
    unfold make_pack
    apply List.mem_append_left
    apply List.mem_map_of_mem
    rw [packCommons_fst_small sp pools _ hsmall]
    have hb := packBasic_length_le sp pools g
    exact mem_take15_four_b _ _ _ _ c (by omega) hc
  · intro hsmall c hc
    unfold make_pack
    apply List.mem_append_left
    apply List.mem_map_of_mem
    rw [packUncommons_fst_small sp pools _ hsmall]
    have hb := packBasic_length_le sp pools g
    have hcm := packCommons_fst_length_le sp pools ((packBasic sp pools g).2) hs
    exact mem_take15_four_c _ _ _ _ c (by omega) hc

/-- Witness for C5: concrete degenerate pools (2 commons, 1 uncommon, no
rare, no basic land) under the concrete sampler. -/
theorem c5_witness :
    ((make_pack trivSampler wPools5 ()).1.length = 15) ∧
    (wPools5.common.length < 10 →
      ∀ c ∈ wPools5.common, some c ∈ (make_pack trivSampler wPools5 ()).1) ∧
    (wPools5.uncommon.length < 3 →
      ∀ c ∈ wPools5.uncommon, some c ∈ (make_pack trivSampler wPools5 ()).1) :=
  c5_make_pack_degrades_gracefully trivSampler wPools5 ()
    (fun l k _ h => by simp only [trivSampler, List.length_take]; omega)

/-- An accepted pick appends exactly its card to the pick history. -/
lemma applyPick_user_picks (sp : Sampler σ) (s : DraftState σ) (slot cid : Nat) :
    (applyPick sp s slot cid).user_picks = s.user_picks ++ [cid] := by
  simp only [applyPick]
  split <;> rfl

/-- `applyPick` never touches the terminal flag. -/
lemma applyPick_done (sp : Sampler σ) (s : DraftState σ) (slot cid : Nat) :
    (applyPick sp s slot cid).done_drafting = s.done_drafting := by
  simp only [applyPick]
  split <;> rfl

/-- `applyPick` also keeps the registered basic-land ids. -/
lemma applyPick_bli (sp : Sampler σ) (s : DraftState σ) (slot cid : Nat) :
    (applyPick sp s slot cid).basic_land_ids = s.basic_land_ids := by
  simp only [applyPick]
  split <;> rfl

/-- Counter advance of `applyPick` when the round's last pick was made. -/
lemma applyPick_counters_adv (sp : Sampler σ) (s : DraftState σ) (slot cid : Nat)
    (h : cardsPerPack ≤ s.pick_idx + 1) :
    (applyPick sp s slot cid).round_idx = s.round_idx + 1 ∧
    (applyPick sp s slot cid).pick_idx = 0 := by
  simp only [applyPick]
  rw [if_pos h]
  exact ⟨rfl, rfl⟩

/-- Counter advance of `applyPick` mid-round. -/
lemma applyPick_counters_noadv (sp : Sampler σ) (s : DraftState σ) (slot cid : Nat)
    (h : ¬ cardsPerPack ≤ s.pick_idx + 1) :
    (applyPick sp s slot cid).round_idx = s.round_idx ∧
    (applyPick sp s slot cid).pick_idx = s.pick_idx + 1 := by
  simp only [applyPick]
  rw [if_neg h]
  exact ⟨rfl, rfl⟩

/-- Anatomy of an accepted `step`: the table was not terminal, the chosen
slot held a card, the card was appended to the history, the counters are
those of `applyPick`, and the terminal flag is set exactly when the round
counter reached the round count. -/
lemma step_accepted_fields (sp : Sampler σ) (cfg : Cfg) (fr : List (Option Nat) → ℚ)
    (s : DraftState σ) (a : Int)
    (hacc : isAccepted (step sp cfg fr s a).1 = true) :
    s.done_drafting = false ∧
    ∃ cid, (currentUserPack s).getD a.toNat none = some cid ∧
      (step sp cfg fr s a).2.user_picks = s.user_picks ++ [cid] ∧
      (step sp cfg fr s a).2.round_idx = (applyPick sp s a.toNat cid).round_idx ∧
      (step sp cfg fr s a).2.pick_idx = (applyPick sp s a.toNat cid).pick_idx ∧
      (step sp cfg fr s a).2.done_drafting =
        decide (numPacks ≤ (applyPick sp s a.toNat cid).round_idx) := by
  by_cases hd : s.done_drafting
  · exfalso
    unfold step at hacc
    rw [if_pos hd] at hacc
    simp [isAccepted] at hacc
  · by_cases hr : a < 0 ∨ (cardsPerPack : Int) ≤ a
    · exfalso
      unfold step at hacc
      rw [if_neg hd, if_pos hr] at hacc
      simp [isAccepted] at hacc
    · cases hc : (currentUserPack s).getD a.toNat none with
      | none =>
        exfalso
        unfold step at hacc
        rw [if_neg hd, if_neg hr, hc] at hacc
        simp [isAccepted] at hacc
      | some cid =>
        refine ⟨by simpa using hd, cid, rfl, ?_⟩
        unfold step
        rw [if_neg hd, if_neg hr, hc]
        dsimp only
        by_cases hfin : numPacks ≤ (applyPick sp s a.toNat cid).round_idx
        · rw [if_pos hfin]
          refine ⟨applyPick_user_picks sp s a.toNat cid, rfl, rfl, ?_⟩
          simp [hfin]
        · rw [if_neg hfin]
          refine ⟨applyPick_user_picks sp s a.toNat cid, rfl, rfl, ?_⟩
          have hdec : decide (numPacks ≤ (applyPick sp s a.toNat cid).round_idx) = false := by
            simpa using hfin
          rw [applyPick_done, hdec]
          simpa using hd

/-- One accepted `step` preserves the counter/history invariant and grows
the pick history by exactly one. -/
lemma step_accepted_preserves (sp : Sampler σ) (cfg : Cfg) (fr : List (Option Nat) → ℚ)
    (s : DraftState σ) (a : Int) (hinv : InvD s)
    (hacc : isAccepted (step sp cfg fr s a).1 = true) :
    InvD ((step sp cfg fr s a).2) ∧
    (step sp cfg fr s a).2.user_picks.length = s.user_picks.length + 1 := by
  obtain ⟨hd, cid, _, hup, hr, hp, hdone⟩ := step_accepted_fields sp cfg fr s a hacc
  obtain ⟨hlen, hplt, hrlt⟩ := hinv.1 hd
  have hlen' : (step sp cfg fr s a).2.user_picks.length = s.user_picks.length + 1 := by
    rw [hup]; simp
  refine ⟨⟨?_, ?_⟩, hlen'⟩
  · intro hdf
    rw [hdone] at hdf
    have hnfin : ¬ numPacks ≤ (applyPick sp s a.toNat cid).round_idx := by
      simpa using hdf
    by_cases hadv : cardsPerPack ≤ s.pick_idx + 1
    · obtain ⟨hr2, hp2⟩ := applyPick_counters_adv sp s a.toNat cid hadv
      rw [hr, hp, hr2, hp2]
      rw [hr2] at hnfin
      refine ⟨?_, ?_, ?_⟩ <;>
        simp_all [cardsPerPack, numPacks] <;> omega
    · obtain ⟨hr2, hp2⟩ := applyPick_counters_noadv sp s a.toNat cid hadv
      rw [hr, hp, hr2, hp2]
      refine ⟨?_, ?_, ?_⟩ <;>
        simp_all [cardsPerPack, numPacks] <;> omega
  · intro hdt
    rw [hdone] at hdt
    have hfin : numPacks ≤ (applyPick sp s a.toNat cid).round_idx := by
      simpa using hdt
    by_cases hadv : cardsPerPack ≤ s.pick_idx + 1
    · obtain ⟨hr2, _⟩ := applyPick_counters_adv sp s a.toNat cid hadv
      rw [hr2] at hfin
      rw [hlen'] at *
      simp_all [cardsPerPack, numPacks]
      omega
    · obtain ⟨hr2, _⟩ := applyPick_counters_noadv sp s a.toNat cid hadv
      rw [hr2] at hfin
      simp_all [cardsPerPack, numPacks]
      omega

/-- Running an all-accepted action sequence preserves the invariant and
grows the pick history by the number of actions. -/
lemma run_accepted_preserves (sp : Sampler σ) (cfg : Cfg) (fr : List (Option Nat) → ℚ)
    (acts : List Int) :
    ∀ s : DraftState σ, InvD s → allAccepted sp cfg fr s acts = true →
    InvD (runSteps sp cfg fr s acts) ∧
    (runSteps sp cfg fr s acts).user_picks.length = s.user_picks.length + acts.length := by
  induction acts with
  | nil => intro s hinv _; exact ⟨hinv, rfl⟩
  | cons a as ih =>
    intro s hinv hacc
    rw [allAccepted, Bool.and_eq_true] at hacc
    obtain ⟨hinv', hlen'⟩ := step_accepted_preserves sp cfg fr s a hinv hacc.1
    obtain ⟨hinvf, hlenf⟩ := ih _ hinv' hacc.2
    refine ⟨hinvf, ?_⟩
    rw [runSteps] at *
    rw [hlenf, hlen']
    simp [List.length_cons]
    omega

/-- C3: from `reset`, a sequence of exactly 45 accepted actions leaves the
table terminal with a 45-entry pick history, and any further action
submitted to the terminal table is rejected with the whole state — pick
history included — unchanged. -/
theorem c3_terminal_after_45_accepted {σ : Type} (sp : Sampler σ) (cfg : Cfg)
    (fr : List (Option Nat) → ℚ) (seed : Nat) (g : σ) (acts : List Int)
    (hlen : acts.length = 45)
    (hacc : allAccepted sp cfg fr (reset sp cfg (some seed) g) acts = true) :
    (runSteps sp cfg fr (reset sp cfg (some seed) g) acts).done_drafting = true ∧
    (runSteps sp cfg fr (reset sp cfg (some seed) g) acts).user_picks.length = 45 ∧
    ∀ a : Int,
      step sp cfg fr (runSteps sp cfg fr (reset sp cfg (some seed) g) acts) a =
        (.quad (build_observation (runSteps sp cfg fr (reset sp cfg (some seed) g) acts)) 0 true,
          runSteps sp cfg fr (reset sp cfg (some seed) g) acts) := by
  have hinv0 : InvD (reset sp cfg (some seed) g) := by
    constructor
    · intro _
      refine ⟨?_, ?_, ?_⟩ <;> simp [reset, cardsPerPack, numPacks]
    · intro h
      simp [reset] at h
  obtain ⟨hinv, hlenf⟩ :=
    run_accepted_preserves sp cfg fr acts (reset sp cfg (some seed) g) hinv0 hacc
  have hlen45 : (runSteps sp cfg fr (reset sp cfg (some seed) g) acts).user_picks.length = 45 := by
    rw [hlenf, hlen]
    simp [reset]
  have hdone : (runSteps sp cfg fr (reset sp cfg (some seed) g) acts).done_drafting = true := by
    by_contra hdf
    have hdf' : (runSteps sp cfg fr (reset sp cfg (some seed) g) acts).done_drafting = false := by
      simpa using hdf
    obtain ⟨hl, hp, hr⟩ := hinv.1 hdf'
    rw [hlen45] at hl
    simp [cardsPerPack, numPacks] at hl hp hr
    omega
  refine ⟨hdone, hlen45, ?_⟩
  intro a
  unfold step
  rw [if_pos hdone]

/-- Witness for C3: the concrete 45-action greedy sequence is all-accepted
from the concrete reset state; afterwards the table is terminal and a 46th
action (here `46`) changes nothing. -/
theorem c3_witness :
    (runSteps trivSampler wCfg wFr wS0 wActs).done_drafting = true ∧
    (runSteps trivSampler wCfg wFr wS0 wActs).user_picks.length = 45 ∧
    step trivSampler wCfg wFr (runSteps trivSampler wCfg wFr wS0 wActs) 46 =
      (.quad (build_observation (runSteps trivSampler wCfg wFr wS0 wActs)) 0 true,
        runSteps trivSampler wCfg wFr wS0 wActs) :=
  ⟨(c3_terminal_after_45_accepted trivSampler wCfg wFr 0 () wActs (by decide) (by decide)).1,
   (c3_terminal_after_45_accepted trivSampler wCfg wFr 0 () wActs (by decide) (by decide)).2.1,
   (c3_terminal_after_45_accepted trivSampler wCfg wFr 0 () wActs (by decide) (by decide)).2.2 46⟩

/-- Appending a name extends the `card_id_map` pairing at the next id. -/
lemma namePairs_append (ns : List String) (n : String) :
    ∀ i : Nat, namePairs i (ns ++ [n]) = namePairs i ns ++ [(n, i + ns.length)] := by
  induction ns with
  | nil => intro i; simp [namePairs]
  | cons h t ih =>
    intro i
    simp only [List.cons_append, namePairs, List.append_eq]
    rw [ih (i + 1)]
    have harith : i + 1 + t.length = i + (t.length + 1) := by omega
    rw [List.length_cons, harith]

/-- Appending a name extends the `id_card_map` pairing at the next id. -/
lemma idPairs_append (ns : List String) (n : String) :
    ∀ i : Nat, idPairs i (ns ++ [n]) = idPairs i ns ++ [(i + ns.length, n)] := by
  induction ns with
  | nil => intro i; simp [idPairs]
  | cons h t ih =>
    intro i
    simp only [List.cons_append, idPairs, List.append_eq]
    rw [ih (i + 1)]
    have harith : i + 1 + t.length = i + (t.length + 1) := by omega
    rw [List.length_cons, harith]

/-- A name pairing has one entry per name. -/
lemma namePairs_length (ns : List String) : ∀ i, (namePairs i ns).length = ns.length := by
  induction ns with
  | nil => intro i; rfl
  | cons h t ih => intro i; simp [namePairs, ih]

/-- Looking up a member name in its pairing returns its first-occurrence
index, and the list holds that name there. -/
lemma alookup_namePairs_mem (ns : List String) (n : String) :
    ∀ i : Nat, n ∈ ns →
    ∃ j, j < ns.length ∧ alookup (namePairs i ns) n = some (i + j) ∧ ns[j]? = some n := by
  induction ns with
  | nil => intro i h; cases h
  | cons h t ih =>
    intro i hmem
    by_cases he : n = h
    · exact ⟨0, by simp, by simp [namePairs, alookup, he], by simp [he]⟩
    · obtain ⟨j, hj, hl, hg⟩ := ih (i + 1) (by
        rcases List.mem_cons.mp hmem with h' | h'
        · exact absurd h' he
        · exact h')
      refine ⟨j + 1, by simpa using hj, ?_, by simpa using hg⟩
      have harith : i + (j + 1) = i + 1 + j := by omega
      rw [harith]
      simpa [namePairs, alookup, he] using hl

/-- Looking up an absent name in a pairing fails. -/
lemma alookup_namePairs_not_mem (ns : List String) (n : String) :
    ∀ i : Nat, n ∉ ns → alookup (namePairs i ns) n = none := by
  induction ns with
  | nil => intro i _; rfl
  | cons h t ih =>
    intro i hmem
    have hne : n ≠ h := fun he => hmem (he ▸ List.mem_cons_self _ _)
    simp [namePairs, alookup, hne, ih (i + 1) (fun hm => hmem (List.mem_cons_of_mem _ hm))]

/-- Looking an index up in the identity pairing returns the name stored at
that position. -/
lemma alookup_idPairs_get (ns : List String) (n : String) :
    ∀ (i j : Nat), ns[j]? = some n → alookup (idPairs i ns) (i + j) = some n := by
  induction ns with
  | nil => intro i j h; simp at h
  | cons h t ih =>
    intro i j hg
    cases j with
    | zero =>
      simp at hg
      simp [idPairs, alookup, hg]
    | succ j' =>
      simp at hg
      have hne : i + (j' + 1) ≠ i := by omega
      simp only [idPairs, alookup, if_neg hne]
      have hrec := ih (i + 1) j' hg
      have harith : i + (j' + 1) = i + 1 + j' := by omega
      rw [harith]
      exact hrec

/-- What `processRecord` does to the two maps and the counter: a fresh name
appends the `(name, idx)` / `(idx, name)` pairs and bumps the counter; a
seen name leaves all three untouched. -/
lemma processRecord_maps (st : BuildState) (r : Record) (n : String)
    (hn : r.name = some n) :
    ∃ st', processRecord st r = .ok st' ∧
      ((alookup st.card_id_map n).isNone →
        st'.card_id_map = st.card_id_map ++ [(n, st.idx)] ∧
        st'.id_card_map = st.id_card_map ++ [(st.idx, n)] ∧
        st'.idx = st.idx + 1) ∧
      (¬ (alookup st.card_id_map n).isNone →
        st'.card_id_map = st.card_id_map ∧
        st'.id_card_map = st.id_card_map ∧
        st'.idx = st.idx) := by
  refine ⟨processNamed st r n, by unfold processRecord; rw [hn], ?_, ?_⟩
  · intro hfresh
    unfold processNamed
    rw [if_pos hfresh]
    by_cases hb : r.is_basic_land
    · rw [if_pos hb]; exact ⟨rfl, rfl, rfl⟩
    · rw [if_neg hb]; exact ⟨rfl, rfl, rfl⟩
  · intro hseen
    unfold processNamed
    rw [if_neg hseen]
    by_cases hb : r.is_basic_land
    · rw [if_pos hb]; exact ⟨rfl, rfl, rfl⟩
    · rw [if_neg hb]; exact ⟨rfl, rfl, rfl⟩

/-- `processRecord` on a named record preserves the map-shape invariant,
extending the processed list by that record. -/
lemma processRecord_good (processed : List Record) (st : BuildState) (r : Record)
    (n : String) (hn : r.name = some n) (hg : GoodMaps processed st) :
    ∃ st', processRecord st r = .ok st' ∧ GoodMaps (processed ++ [r]) st' := by
  obtain ⟨names, hnd, hcm, him, hidx, hmem⟩ := hg
  obtain ⟨st', hok, hfresh, hseen⟩ := processRecord_maps st r n hn
  refine ⟨st', hok, ?_⟩
  by_cases hcase : (alookup st.card_id_map n).isNone
  · obtain ⟨hcm', him', hidx'⟩ := hfresh hcase
    have hnotmem : n ∉ names := by
      intro hmemn
      obtain ⟨j, _, hl, _⟩ := alookup_namePairs_mem names n 0 hmemn
      rw [hcm, hl] at hcase
      simp at hcase
    refine ⟨names ++ [n], ?_, ?_, ?_, ?_, ?_⟩
    · rw [List.nodup_append]
      refine ⟨hnd, List.nodup_singleton n, ?_⟩
      intro x hx hx'
      simp at hx'
      subst hx'
      exact hnotmem hx
    · rw [hcm', hcm, hidx, namePairs_append]
      simp
    · rw [him', him, hidx, idPairs_append]
      simp
    · rw [hidx', hidx]
      simp
    · intro n'
      simp only [List.mem_append, List.map_append, List.mem_singleton, hmem n',
        List.map_cons, List.map_nil, hn]
      simp [Option.some.injEq]
  · obtain ⟨hcm', him', hidx'⟩ := hseen hcase
    have hmemn : n ∈ names := by
      by_contra hnm
      rw [hcm, alookup_namePairs_not_mem names n 0 hnm] at hcase
      simp at hcase
    refine ⟨names, hnd, by rw [hcm', hcm], by rw [him', him], by rw [hidx', hidx], ?_⟩
    intro n'
    rw [hmem n']
    simp only [List.map_append, List.mem_append, List.map_cons, List.map_nil, hn,
      List.mem_singleton, Option.some.injEq]
    constructor
    · exact fun h' => Or.inl h'
    · intro h'
      rcases h' with h' | he
      · exact h'
      · rw [he]
        exact (hmem n).mp hmemn

/-- Running the build loop from a good state over any record list that
succeeds yields a good state for the extended processed list. -/
lemma buildMapsAux_good (recs : List Record) :
    ∀ (processed : List Record) (st out : BuildState),
      GoodMaps processed st → buildMapsAux st recs = .ok out →
      GoodMaps (processed ++ recs) out := by
  induction recs with
  | nil =>
    intro processed st out hg h
    unfold buildMapsAux at h
    cases h
    simpa using hg
  | cons r rs ih =>
    intro processed st out hg h
    cases hn : r.name with
    | none =>
      exfalso
      unfold buildMapsAux processRecord at h
      rw [hn] at h
      simp at h
    | some n =>
      obtain ⟨st', hok, hg'⟩ := processRecord_good processed st r n hn hg
      unfold buildMapsAux at h
      rw [hok] at h
      dsimp only at h
      have hres := ih (processed ++ [r]) st' out hg' h
      simpa [List.append_assoc] using hres

/-- C7: for every record list whose build succeeds, the two catalog maps
round-trip on every name appearing in some record
(`id_card_map[card_id_map[name]] == name`), and repeated records create no
new identity: the map has exactly one entry per distinct name. -/
theorem c7_catalog_maps_roundtrip (records : List Record) (out : BuildState)
    (h : buildMaps records = .ok out) :
    (∀ n : String, (∃ r ∈ records, r.name = some n) →
      ∃ i, alookup out.card_id_map n = some i ∧ alookup out.id_card_map i = some n) ∧
    out.card_id_map.length = ((records.filterMap Record.name).dedup).length := by
  have hg0 : GoodMaps [] initBuildState :=
    ⟨[], List.nodup_nil, rfl, rfl, rfl, by simp⟩
  have hg := buildMapsAux_good records [] initBuildState out hg0 h
  rw [List.nil_append] at hg
  obtain ⟨names, hnd, hcm, him, hidx, hmem⟩ := hg
  constructor
  · rintro n ⟨r, hr, hrn⟩
    have hnmem : n ∈ names := (hmem n).mpr (List.mem_map.mpr ⟨r, hr, hrn⟩)
    obtain ⟨j, hj, hl, hget⟩ := alookup_namePairs_mem names n 0 hnmem
    refine ⟨0 + j, ?_, ?_⟩
    · rw [hcm]; exact hl
    · rw [him]; exact alookup_idPairs_get names n 0 j hget
  · rw [hcm, namePairs_length]
    have hfin : names.toFinset = (records.filterMap Record.name).toFinset := by
      ext x
      simp only [List.mem_toFinset, List.mem_filterMap]
      rw [hmem x]
      simp [List.mem_map]
    calc names.length = names.toFinset.card := (List.toFinset_card_of_nodup hnd).symm
      _ = (records.filterMap Record.name).toFinset.card := by rw [hfin]
      _ = (records.filterMap Record.name).dedup.length := List.card_toFinset _

/-- Witness for C7 on a concrete catalog with a repeated name: the name
`A` round-trips and the map has 2 entries for the 2 distinct names among
3 records. -/
theorem c7_witness :
    (∃ i, alookup wOut7.card_id_map "A" = some i ∧
      alookup wOut7.id_card_map i = some "A") ∧
    wOut7.card_id_map.length = ((wRecords7.filterMap Record.name).dedup).length :=
  ⟨(c7_catalog_maps_roundtrip wRecords7 wOut7 rfl).1 "A"
      ⟨⟨some "A", [], none, false⟩, by decide, rfl⟩,
   (c7_catalog_maps_roundtrip wRecords7 wOut7 rfl).2⟩

/-- Appending a pair for a different key does not affect a lookup. -/
lemma alookup_append_of_ne {β : Type} (l : List (String × β)) (k : String) (v : β)
    (a : String) (ha : a ≠ k) : alookup (l ++ [(k, v)]) a = alookup l a := by
  induction l with
  | nil => simp [alookup, ha]
  | cons p t ih =>
    obtain ⟨pk, pv⟩ := p
    by_cases he : a = pk
    · simp [alookup, he]
    · simp only [List.cons_append, alookup, if_neg he]
      exact ih

/-- Appending a pair for an absent key makes its lookup find the new pair. -/
lemma alookup_append_self_of_none {β : Type} (l : List (String × β)) (k : String) (v : β)
    (h : alookup l k = none) : alookup (l ++ [(k, v)]) k = some v := by
  induction l with
  | nil => simp [alookup]
  | cons p t ih =>
    obtain ⟨pk, pv⟩ := p
    by_cases he : k = pk
    · rw [alookup, if_pos he] at h
      cases h
    · rw [alookup, if_neg he] at h
      simp only [List.cons_append, alookup, if_neg he]
      exact ih h

/-- Appending to the basic-land pool adds one occurrence of the new id to
the pool union. -/
lemma countAll_addBasic (pools : RarityPools) (cid i : Nat) :
    countAll { pools with basic_land := pools.basic_land ++ [cid] } i =
      countAll pools i + List.count i [cid] := by
  simp only [countAll, List.count_append]
  omega

/-- `addToPool` with a recognized label adds one occurrence of the new id
to the pool union. -/
lemma countAll_addToPool (pools : RarityPools) (rar : String) (cid i : Nat)
    (hrec : rar ∈ recognizedRarities) :
    countAll (addToPool pools rar cid) i = countAll pools i + List.count i [cid] := by
  simp only [recognizedRarities, List.mem_cons, List.not_mem_nil, or_false] at hrec
  rcases hrec with h | h | h | h | h
  · subst h
    unfold addToPool
    rw [if_pos rfl]
    simp only [countAll, List.count_append]
    omega
  · subst h
    unfold addToPool
    rw [if_neg (by decide), if_pos rfl]
    simp only [countAll, List.count_append]
    omega
  · subst h
    unfold addToPool
    rw [if_neg (by decide), if_neg (by decide), if_pos rfl]
    simp only [countAll, List.count_append]
    omega
  · subst h
    unfold addToPool
    rw [if_neg (by decide), if_neg (by decide), if_neg (by decide), if_pos rfl]
    simp only [countAll, List.count_append]
    omega
  · subst h
    unfold addToPool
    rw [if_neg (by decide), if_neg (by decide), if_neg (by decide), if_neg (by decide),
      if_pos rfl]
    simp only [countAll, List.count_append]
    omega

/-- In the fresh-name case, `processNamed` files the new id `st.idx` into
its single pool. -/
lemma processNamed_pools_fresh (st : BuildState) (r : Record) (n : String)
    (hfresh : (alookup st.card_id_map n).isNone) :
    (processNamed st r n).pools =
      (if r.is_basic_land then
        { st.pools with basic_land := st.pools.basic_land ++ [st.idx] }
      else addToPool st.pools (pyLower (r.rarity.getD "")) st.idx) := by
  unfold processNamed
  rw [if_pos hfresh]
  have hl : alookup (st.card_id_map ++ [(n, st.idx)]) n = some st.idx :=
    alookup_append_self_of_none _ _ _ (Option.isNone_iff_eq_none.mp hfresh)
  dsimp only
  rw [hl]
  simp only [Option.getD_some]
  by_cases hb : r.is_basic_land
  · rw [if_pos hb, if_pos hb]
  · rw [if_neg hb, if_neg hb]

/-- Main pool invariant: over records with fresh, pairwise-distinct names,
each of which lands in exactly one pool (basic-land flag or recognized
label), the pool union holds each assigned identity exactly once. -/
lemma buildMapsAux_pools (recs : List Record) :
    ∀ st out : BuildState,
      buildMapsAux st recs = .ok out →
      (∀ r ∈ recs, ∀ m : String, r.name = some m → alookup st.card_id_map m = none) →
      (recs.filterMap Record.name).Nodup →
      (∀ r ∈ recs, r.is_basic_land = true ∨
        pyLower (r.rarity.getD "") ∈ recognizedRarities) →
      (∀ i, countAll st.pools i = if i < st.idx then 1 else 0) →
      ∀ i, countAll out.pools i = if i < out.idx then 1 else 0 := by
  induction recs with
  | nil =>
    intro st out h _ _ _ hc
    unfold buildMapsAux at h
    cases h
    exact hc
  | cons r rs ih =>
    intro st out h hfresh hnodup hclass hc
    cases hn : r.name with
    | none =>
      exfalso
      unfold buildMapsAux processRecord at h
      rw [hn] at h
      simp at h
    | some n =>
      have hfr : alookup st.card_id_map n = none :=
        hfresh r (List.mem_cons_self _ _) n hn
      have hfrb : (alookup st.card_id_map n).isNone := by rw [hfr]; rfl
      obtain ⟨st', hok, hmaps, _⟩ := processRecord_maps st r n hn
      obtain ⟨hcm', _, hidx'⟩ := hmaps hfrb
      have hok2 : processRecord st r = .ok (processNamed st r n) := by
        unfold processRecord
        rw [hn]
      have hst' : st' = processNamed st r n := by
        rw [hok] at hok2
        injection hok2
      have hpools' : st'.pools =
          (if r.is_basic_land then
            { st.pools with basic_land := st.pools.basic_land ++ [st.idx] }
          else addToPool st.pools (pyLower (r.rarity.getD "")) st.idx) := by
        rw [hst']
        exact processNamed_pools_fresh st r n hfrb
      unfold buildMapsAux at h
      rw [hok] at h
      dsimp only at h
      have hfm : (r :: rs).filterMap Record.name = n :: rs.filterMap Record.name := by
        simp [List.filterMap_cons, hn]
      rw [hfm] at hnodup
      have hn_notin : n ∉ rs.filterMap Record.name := (List.nodup_cons.mp hnodup).1
      have hnodup' : (rs.filterMap Record.name).Nodup := (List.nodup_cons.mp hnodup).2
      apply ih st' out h ?_ hnodup' ?_ ?_
      · intro r' hr' m hm
        have hm_mem : m ∈ rs.filterMap Record.name := List.mem_filterMap.mpr ⟨r', hr', hm⟩
        have hmn : m ≠ n := fun he => hn_notin (he ▸ hm_mem)
        rw [hcm', alookup_append_of_ne st.card_id_map n st.idx m hmn]
        exact hfresh r' (List.mem_cons_of_mem _ hr') m hm
      · exact fun r' hr' => hclass r' (List.mem_cons_of_mem _ hr')
      · intro i
        rw [hpools', hidx']
        by_cases hb : r.is_basic_land
        · rw [if_pos hb, countAll_addBasic, hc i, List.count_singleton']
          split_ifs <;> omega
        · have hrec : pyLower (r.rarity.getD "") ∈ recognizedRarities := by
            rcases hclass r (List.mem_cons_self _ _) with h' | h'
            · exact absurd h' hb
            · exact h'
          rw [if_neg hb, countAll_addToPool st.pools _ st.idx i hrec, hc i,
            List.count_singleton']
          split_ifs <;> omega

/-- C4 counterexample: on the catalog
`[{name X, common}, {name X, common}, {name Y, rarity "special"}]` the
build succeeds with two identities, the generated pack holds identity 0 in
two slots both drawn from the common class (the common pool is `[0, 0]`),
and identity 1 appears in no pool — refuting both halves of the claim for
arbitrary catalogs. -/
theorem c4_counterexample :
    buildOk (buildMaps cexRecords4) = true ∧
    cexIdx4 = 2 ∧
    List.count (some 0) (make_pack trivSampler cexPools4 ()).1 = 2 ∧
    countAll cexPools4 1 = 0 := by
  decide

/-- C4 as amended: for catalogs whose records carry pairwise-distinct
names and each classify into a pool (basic-land flag or recognized rarity
label), the build succeeds, every assigned identity appears in exactly one
rarity pool, and the slots `make_pack` draws from the common class are
pairwise distinct, as are those drawn from the uncommon class (for any
sampler whose `sample` preserves distinctness, as `random.sample` does). -/
theorem c4_pack_class_distinct_amended {σ : Type} (sp : Sampler σ)
    (records : List Record)
    (hnodup : (records.filterMap Record.name).Nodup)
    (hnamed : ∀ r ∈ records, r.name ≠ none)
    (hclass : ∀ r ∈ records, r.is_basic_land = true ∨
      pyLower (r.rarity.getD "") ∈ recognizedRarities)
    (hsampNodup : ∀ (l : List Nat) (k : Nat) (g' : σ), l.Nodup →
      ((sp.sample l k g').1).Nodup) :
    ∃ out, buildMaps records = .ok out ∧
      (∀ i, i < out.idx → countAll out.pools i = 1) ∧
      (∀ g' : σ, ((packCommons sp out.pools g').1).Nodup ∧
        ((packUncommons sp out.pools g').1).Nodup) := by
  obtain ⟨out, hok⟩ := buildMapsAux_ok_of_named records initBuildState hnamed
  have hcount := buildMapsAux_pools records initBuildState out hok
    (fun r _ m _ => rfl) hnodup hclass
    (by intro i; simp [countAll, initBuildState])
  refine ⟨out, hok, ?_, ?_⟩
  · intro i hi
    rw [hcount i, if_pos hi]
  · have hbound : ∀ i, countAll out.pools i ≤ 1 := by
      intro i
      rw [hcount i]
      split <;> omega
    have hcommon : out.pools.common.Nodup := by
      rw [List.nodup_iff_count_le_one]
      intro a
      have h3 : List.count a out.pools.common ≤ countAll out.pools a := by
        simp only [countAll, List.count_append]
        omega
      exact le_trans h3 (hbound a)
    have huncommon : out.pools.uncommon.Nodup := by
      rw [List.nodup_iff_count_le_one]
      intro a
      have h3 : List.count a out.pools.uncommon ≤ countAll out.pools a := by
        simp only [countAll, List.count_append]
        omega
      exact le_trans h3 (hbound a)
    intro g'
    constructor
    · unfold packCommons
      split
      · exact hsampNodup _ _ _ hcommon
      · exact hcommon
    · unfold packUncommons
      split
      · exact hsampNodup _ _ _ huncommon
      · exact huncommon

/-- Witness for the amended C4 on a concrete four-record catalog with
distinct names and recognized classes, under the concrete sampler. -/
theorem c4_witness :
    ∃ out, buildMaps wRecords4 = .ok out ∧
      (∀ i, i < out.idx → countAll out.pools i = 1) ∧
      (∀ g' : Unit, ((packCommons trivSampler out.pools g').1).Nodup ∧
        ((packUncommons trivSampler out.pools g').1).Nodup) :=
  c4_pack_class_distinct_amended trivSampler wRecords4
    (by decide) (by decide) (by decide)
    (fun l k _ h => h.sublist (List.take_sublist k l))

end MTG
